import Mathlib

/-!
Verification of `Scripts/generate_choreo.py`.

The script is shallowly embedded over exact rationals: every Python float
value is modelled as a `ℚ`.  The only transcendental operation the script
uses is `math.sin(x * math.pi)` (and `math.sin(x * math.pi * 2)`, which is
the same function at `2 * x`), so the whole development is parameterised by
a function `sinpi : ℚ → ℚ` standing for `x ↦ sin(x · π)`; theorems that
need it assume only `|sinpi x| ≤ 1`, which the mathematical sine (and any
float implementation of it) satisfies.  Python dicts are modelled as
association lists in insertion order (Python 3.7+ dicts preserve insertion
order, and `json.dump` serialises them in that order).
-/

namespace Macdance

/-- A 2D point, as the `[x, y]` pairs the script emits. -/
abbrev Pt := ℚ × ℚ

/-- A pose: a joint-name-keyed mapping to 2D points, in insertion order. -/
abbrev Pose := List (String × Pt)

/-- A keyframe: `{"timestamp": t, "joints": pose}`. -/
abbrev Keyframe := ℚ × Pose

/-- A progress event `{"stage": s, "progress": p}`. -/
abbrev Event := String × ℚ

/-- `JOINT_NAMES` from the script: the canonical 17-name vocabulary. -/
def JOINT_NAMES : List String :=
  ["nose", "left_eye", "right_eye", "left_ear", "right_ear",
   "left_shoulder", "right_shoulder",
   "left_elbow", "right_elbow",
   "left_wrist", "right_wrist",
   "left_hip", "right_hip",
   "left_knee", "right_knee",
   "left_ankle", "right_ankle"]

/-- `SMPL_TO_JOINT` from the script, in dict insertion (= iteration) order. -/
def smplPairs : List (Nat × String) :=
  [(15, "nose"), (16, "left_ear"), (17, "right_ear"),
   (18, "left_shoulder"), (19, "right_shoulder"),
   (20, "left_elbow"), (21, "right_elbow"),
   (22, "left_wrist"), (23, "right_wrist"),
   (1, "left_hip"), (2, "right_hip"),
   (4, "left_knee"), (5, "right_knee"),
   (7, "left_ankle"), (8, "right_ankle")]

/-- Python `min` over a non-empty list (the `[]` case is never reached by
the script, which guards with `if not visible`). -/
def listMin : List ℚ → ℚ
  | [] => 0
  | x :: xs => xs.foldl min x

/-- Python `max` over a non-empty list. -/
def listMax : List ℚ → ℚ
  | [] => 0
  | x :: xs => xs.foldl max x

/-- The `visible` dict built by `project_smpl_to_2d`: for each
`(smpl_idx, name)` of `SMPL_TO_JOINT` with `smpl_idx < len(joints_3d)`,
the first two coordinates of `joints_3d[smpl_idx]`. -/
def visibleOf (joints3d : List (ℚ × ℚ × ℚ)) : List (String × Pt) :=
  smplPairs.filterMap fun p =>
    (joints3d.get? p.1).map fun j => (p.2, (j.1, j.2.1))

/-- `project_smpl_to_2d` (lines 50–75): bounding-box normalisation to
`[0,1]²` with the Y axis flipped; `range or 1.0` models Python's falsy-`or`
(a zero extent is replaced by `1.0`). -/
def project_smpl_to_2d (joints3d : List (ℚ × ℚ × ℚ)) : Pose :=
  let vis := visibleOf joints3d
  if vis.isEmpty then []
  else
    let xs := vis.map fun v => v.2.1
    let ys := vis.map fun v => v.2.2
    let minX := listMin xs
    let maxX := listMax xs
    let minY := listMin ys
    let maxY := listMax ys
    let rangeX := if maxX - minX = 0 then 1 else maxX - minX
    let rangeY := if maxY - minY = 0 then 1 else maxY - minY
    vis.map fun v =>
      (v.1, ((v.2.1 - minX) / rangeX, 1 - (v.2.2 - minY) / rangeY))

/-- `base_pose` (lines 90–105), in the source's dict insertion order. -/
def base_pose : Pose :=
  [("nose", (0.50, 0.08)),
   ("left_shoulder", (0.38, 0.22)),
   ("right_shoulder", (0.62, 0.22)),
   ("left_elbow", (0.28, 0.38)),
   ("right_elbow", (0.72, 0.38)),
   ("left_wrist", (0.22, 0.52)),
   ("right_wrist", (0.78, 0.52)),
   ("left_hip", (0.42, 0.52)),
   ("right_hip", (0.58, 0.52)),
   ("left_knee", (0.40, 0.70)),
   ("right_knee", (0.60, 0.70)),
   ("left_ankle", (0.40, 0.88)),
   ("right_ankle", (0.60, 0.88))]

/-- `arms_up` (lines 107–114).  The source mutates a copy of `base_pose`,
overwriting the elbow/wrist keys; key overwriting preserves dict order, so
the result is `base_pose` with those four entries replaced in place.
`lift = abs(sin(t_phase * pi))` is `|sinpi t|`. -/
def arms_up (sinpi : ℚ → ℚ) (t : ℚ) : Pose :=
  let lift := |sinpi t|
  [("nose", (0.50, 0.08)),
   ("left_shoulder", (0.38, 0.22)),
   ("right_shoulder", (0.62, 0.22)),
   ("left_elbow", (0.30, 0.22 - lift * 0.10)),
   ("right_elbow", (0.70, 0.22 - lift * 0.10)),
   ("left_wrist", (0.25, 0.10 - lift * 0.08)),
   ("right_wrist", (0.75, 0.10 - lift * 0.08)),
   ("left_hip", (0.42, 0.52)),
   ("right_hip", (0.58, 0.52)),
   ("left_knee", (0.40, 0.70)),
   ("right_knee", (0.60, 0.70)),
   ("left_ankle", (0.40, 0.88)),
   ("right_ankle", (0.60, 0.88))]

/-- `side_step` (lines 116–125): every joint of `base_pose` is shifted
horizontally by `shift = direction * 0.06 * abs(sin(t_phase * pi))`, after
which the elbow/wrist entries are overwritten (so their shift is
discarded); dict order is preserved. -/
def side_step (sinpi : ℚ → ℚ) (t direction : ℚ) : Pose :=
  let shift := direction * 0.06 * |sinpi t|
  [("nose", (0.50 + shift, 0.08)),
   ("left_shoulder", (0.38 + shift, 0.22)),
   ("right_shoulder", (0.62 + shift, 0.22)),
   ("left_elbow", (0.20, 0.35)),
   ("right_elbow", (0.80, 0.35)),
   ("left_wrist", (0.15, 0.50)),
   ("right_wrist", (0.85, 0.50)),
   ("left_hip", (0.42 + shift, 0.52)),
   ("right_hip", (0.58 + shift, 0.52)),
   ("left_knee", (0.40 + shift, 0.70)),
   ("right_knee", (0.60 + shift, 0.70)),
   ("left_ankle", (0.40 + shift, 0.88)),
   ("right_ankle", (0.60 + shift, 0.88))]

/-- `wave_arms` (lines 127–134): `wave = sin(t_phase * pi * 2) = sinpi (2t)`;
the four arm entries of `base_pose` are overwritten in place. -/
def wave_arms (sinpi : ℚ → ℚ) (t : ℚ) : Pose :=
  let wave := sinpi (2 * t)
  [("nose", (0.50, 0.08)),
   ("left_shoulder", (0.38, 0.22)),
   ("right_shoulder", (0.62, 0.22)),
   ("left_elbow", (0.28 + wave * 0.08, 0.32 + wave * 0.06)),
   ("right_elbow", (0.72 - wave * 0.08, 0.32 - wave * 0.06)),
   ("left_wrist", (0.18 + wave * 0.12, 0.20 + wave * 0.10)),
   ("right_wrist", (0.82 - wave * 0.12, 0.20 - wave * 0.10)),
   ("left_hip", (0.42, 0.52)),
   ("right_hip", (0.58, 0.52)),
   ("left_knee", (0.40, 0.70)),
   ("right_knee", (0.60, 0.70)),
   ("left_ankle", (0.40, 0.88)),
   ("right_ankle", (0.60, 0.88))]

/-- `direction = 1.0 if (i // move_beats) % 2 == 0 else -1.0` (line 145). -/
def dirOf (i : Nat) : ℚ := if (i / 4) % 2 = 0 then 1 else -1

/-- The `move_sequence = [arms_up, side_step, wave_arms, side_step]` cycle
(line 136), with the direction passed to the `side_step` entries as the
dispatch on lines 147–150 does. -/
def moveFuns (sinpi : ℚ → ℚ) (d : ℚ) : List (ℚ → Pose) :=
  [arms_up sinpi, fun t => side_step sinpi t d,
   wave_arms sinpi, fun t => side_step sinpi t d]

/-- The pose emitted for beat index `i` (lines 142–150):
`move_idx = (i // 4) % 4`, `t_phase = (i % 4) / 4`; `side_step` (indices 1
and 3, selected by the `==` function-identity test in the source) receives
the alternating direction, the other moves only the phase. -/
def frameAt (sinpi : ℚ → ℚ) (i : Nat) : Pose :=
  let mi := (i / 4) % 4
  let t : ℚ := (i % 4 : ℕ) / 4
  if mi = 1 ∨ mi = 3 then side_step sinpi t (dirOf i)
  else if mi = 0 then arms_up sinpi t
  else wave_arms sinpi t

/-- The `for i, beat_time in enumerate(beat_times)` loop (lines 139–155):
`break` at the first beat with `beat_time > duration`, otherwise emit one
keyframe per beat. -/
def seqFrames (sinpi : ℚ → ℚ) (duration : ℚ) : Nat → List ℚ → List Keyframe
  | _, [] => []
  | i, t :: rest =>
    if duration < t then []
    else (t, frameAt sinpi i) :: seqFrames sinpi duration (i + 1) rest

/-- `generate_template_choreo` (lines 78–157).  `beat_interval = 60.0 / bpm`
(line 84) is computed and never read again, but Python raises
`ZeroDivisionError` when `bpm == 0.0`, so the function is modelled as
`Option`-valued: `none` is that raised error. -/
def generate_template_choreo (sinpi : ℚ → ℚ) (bpm : ℚ) (beat_times : List ℚ)
    (duration : ℚ) : Option (List Keyframe) :=
  if bpm = 0 then none
  else some (seqFrames sinpi duration 0 beat_times)

/-- Stage labels and progress values emitted by `emit_progress` calls. -/
def evAnalyze : Event := ("Analyzing music", 0.1)

def evFallback : Event := ("Analyzing music (fallback)", 0.15)

def evGenMoves : Event := ("Generating moves", 0.3)

def evLoad : Event := ("Loading EDGE model", 0.35)

def evInfer : Event := ("Running EDGE inference", 0.5)

def evProject : Event := ("Projecting to 2D", 0.75)

def evTemplate : Event := ("Generating moves (template mode)", 0.4)

def evSave : Event := ("Saving choreography", 0.9)

def evDone : Event := ("Done", 1.0)

def evError : Event := ("Error", 0)

/-- Environment of the EDGE tier (`try_edge_generation`): the outcome of
each external interaction.  `torchOk`: `import torch` succeeds;
`specFound`: `importlib.util.find_spec("EDGE")` is not `None` (and the
lookup itself did not raise); `loadOk`: `from EDGE import EDGE`, the device
query and `EDGE(device=...)` all succeed; `inferOut`: `model.generate`'s
output as a list of `(t, pose_3d)` pairs, `none` when it raised. -/
structure EdgeEnv where
  torchOk : Bool
  specFound : Bool
  loadOk : Bool
  inferOut : Option (List (ℚ × List (ℚ × ℚ × ℚ)))

/-- The projection loop of `try_edge_generation` (lines 178–182): project
each 3D pose, skipping timesteps whose projected pose is empty. -/
def edgeProj (out : List (ℚ × List (ℚ × ℚ × ℚ))) : List Keyframe :=
  out.filterMap fun tp =>
    let j := project_smpl_to_2d tp.2
    if j.isEmpty then none else some (tp.1, j)

/-- `try_edge_generation` (lines 160–187): returns the progress events it
emitted together with its result; every failure path is caught by the
enclosing `except Exception` and becomes `none`. -/
def try_edge_generation (e : EdgeEnv) : List Event × Option (List Keyframe) :=
  if !e.torchOk then ([], none)
  else if !e.specFound then ([], none)
  else if !e.loadOk then ([evLoad], none)
  else
    match e.inferOut with
    | none => ([evLoad, evInfer], none)
    | some out =>
      let frames := edgeProj out
      ([evLoad, evInfer, evProject],
       if frames.isEmpty then none else some frames)

/-- The synthesized uniform beat grid (lines 203–204 and 214–215):
`[i * beat_interval for i in range(int(duration / beat_interval))]` with
`beat_interval = 60.0 / bpm`.  Python's `int()` truncates toward zero and
`range` of a non-positive count is empty, which coincides with
`(⌊·⌋).toNat` on every input. -/
def uniformGrid (bpm duration : ℚ) : List ℚ :=
  (List.range (Int.toNat ⌊duration / (60 / bpm)⌋)).map
    fun i : ℕ => (i : ℚ) * (60 / bpm)

/-- Environment of one `generate` run: the outcome of each external
interaction.  `librosa` is `some (duration, bpm, beat_times)` when the
whole librosa block (lines 196–201) succeeds with those values, `none`
when any of it raised; `probe` is the `soundfile` duration or `none` when
that raised; the `Ok` booleans are the `os.makedirs` and the two
`json.dump` calls; `outName` is `os.path.basename(output_dir)`. -/
structure GenEnv where
  fileExists : Bool
  mkdirOk : Bool
  librosa : Option (ℚ × ℚ × List ℚ)
  probe : Option ℚ
  writeAnalysisOk : Bool
  edge : EdgeEnv
  writeChoreoOk : Bool
  outName : String

/-- The `except` branch of the analysis (lines 205–215): emit the fallback
event, take the probe duration or `180.0`, set `bpm = 120.0` and
synthesize the uniform grid. -/
def fallbackAnalysis (g : GenEnv) : List Event × ℚ × ℚ × List ℚ :=
  let dur := g.probe.getD 180
  ([evFallback], (120, dur, uniformGrid 120 dur))

/-- Lines 195–215: the analysis stage, returning the events it emitted
after `evAnalyze` and the resulting `(bpm, duration, beat_times)`.  When
librosa returns no beats and `bpm = 0.0`, line 203's `60.0 / bpm` raises
inside the `try`, which lands in the same `except` branch. -/
def analyzeStage (g : GenEnv) : List Event × ℚ × ℚ × List ℚ :=
  match g.librosa with
  | none => fallbackAnalysis g
  | some (dur, bpm, beats) =>
    if beats.isEmpty then
      if bpm = 0 then fallbackAnalysis g
      else ([], (bpm, dur, uniformGrid bpm dur))
    else ([], (bpm, dur, beats))

/-- The `choreo` dict assembled on lines 235–240. -/
structure Choreography where
  songMD5 : String
  bpm : ℚ
  totalDuration : ℚ
  frames : List Keyframe

/-- Lines 233–245: emit the saving event, write `choreo.json` (which can
raise) and emit the final event. -/
def saveTail (g : GenEnv) (bpm dur : ℚ) (fs : List Keyframe)
    (evs : List Event) : List Event × Option Choreography :=
  if g.writeChoreoOk then
    (evs ++ [evSave, evDone], some ⟨g.outName, bpm, dur, fs⟩)
  else (evs ++ [evSave], none)

/-- `generate` (lines 190–245), as the list of progress events it emits
and `some` choreography on success or `none` when it raises. -/
def generate (sinpi : ℚ → ℚ) (g : GenEnv) : List Event × Option Choreography :=
  if !g.mkdirOk then ([], none)
  else
    let a := analyzeStage g
    if !g.writeAnalysisOk then (evAnalyze :: a.1, none)
    else
      let e := try_edge_generation g.edge
      let evs := evAnalyze :: a.1 ++ [evGenMoves] ++ e.1
      match e.2 with
      | some fs => saveTail g a.2.1 a.2.2.1 fs evs
      | none =>
        match generate_template_choreo sinpi a.2.1 a.2.2.2 a.2.2.1 with
        | some fs => saveTail g a.2.1 a.2.2.1 fs (evs ++ [evTemplate])
        | none => (evs ++ [evTemplate], none)

/-- The `__main__` block (lines 248–264): the full progress trace of one
process run, with the terminal `Error` event appended when the input file
is missing or `generate` raised. -/
def runMain (sinpi : ℚ → ℚ) (g : GenEnv) : List Event :=
  if !g.fileExists then [evError]
  else
    match generate sinpi g with
    | (evs, some _) => evs
    | (evs, none) => evs ++ [evError]

/-- The ML tier fails only after having already emitted the inference or
projection milestone: it reached `model.generate` and either that raised
or every projected pose was empty. -/
def edgeLateFail (e : EdgeEnv) : Bool :=
  e.torchOk && e.specFound && e.loadOk &&
    (match e.inferOut with
     | none => true
     | some out => (edgeProj out).isEmpty)

/-- A pose is well-formed when every entry uses a canonical joint name and
both coordinates lie in `[0, 1]`. -/
def poseOK (p : Pose) : Prop :=
  ∀ e ∈ p, e.1 ∈ JOINT_NAMES ∧
    0 ≤ e.2.1 ∧ e.2.1 ≤ 1 ∧ 0 ≤ e.2.2 ∧ e.2.2 ≤ 1

/-- The analysed `bpm` of a run. -/
def analysisBpm (g : GenEnv) : ℚ := (analyzeStage g).2.1

/-- The analysed `duration` of a run. -/
def analysisDuration (g : GenEnv) : ℚ := (analyzeStage g).2.2.1

/-- The analysed `beat_times` of a run. -/
def analysisBeats (g : GenEnv) : List ℚ := (analyzeStage g).2.2.2

/-- The progress values of the non-`Error` events of a trace. -/
def okProgress (evs : List Event) : List ℚ :=
  (evs.filter fun ev => ev.1 ≠ "Error").map fun ev => ev.2

/-! ### Helper lemmas -/

lemma foldl_min_le_init (xs : List ℚ) (x : ℚ) : xs.foldl min x ≤ x := by
  induction xs generalizing x with
  | nil => exact le_refl x
  | cons y ys ih => exact le_trans (ih (min x y)) (min_le_left x y)

lemma foldl_min_le_mem (xs : List ℚ) (x a : ℚ) (h : a ∈ xs) :
    xs.foldl min x ≤ a := by
  induction xs generalizing x with
  | nil => cases h
  | cons y ys ih =>
    rcases List.mem_cons.mp h with rfl | h'
    · exact le_trans (foldl_min_le_init ys (min x a)) (min_le_right x a)
    · exact ih (min x y) h'

lemma listMin_le (l : List ℚ) (a : ℚ) (h : a ∈ l) : listMin l ≤ a := by
  cases l with
  | nil => cases h
  | cons x xs =>
    rcases List.mem_cons.mp h with rfl | h'
    · exact foldl_min_le_init xs a
    · exact foldl_min_le_mem xs x a h'

lemma init_le_foldl_max (xs : List ℚ) (x : ℚ) : x ≤ xs.foldl max x := by
  induction xs generalizing x with
  | nil => exact le_refl x
  | cons y ys ih => exact le_trans (le_max_left x y) (ih (max x y))

lemma mem_le_foldl_max (xs : List ℚ) (x a : ℚ) (h : a ∈ xs) :
    a ≤ xs.foldl max x := by
  induction xs generalizing x with
  | nil => cases h
  | cons y ys ih =>
    rcases List.mem_cons.mp h with rfl | h'
    · exact le_trans (le_max_right x a) (init_le_foldl_max ys (max x a))
    · exact ih (max x y) h'

lemma le_listMax (l : List ℚ) (a : ℚ) (h : a ∈ l) : a ≤ listMax l := by
  cases l with
  | nil => cases h
  | cons x xs =>
    rcases List.mem_cons.mp h with rfl | h'
    · exact init_le_foldl_max xs a
    · exact mem_le_foldl_max xs x a h'

/-- Both axis bounds of one normalised coordinate: `(v - lo) / range` with
the zero-extent substitution lies in `[0, 1]` when `lo ≤ v ≤ hi`. -/
lemma norm_coord_mem_unit (lo hi v : ℚ) (h1 : lo ≤ v) (h2 : v ≤ hi) :
    0 ≤ (v - lo) / (if hi - lo = 0 then 1 else hi - lo) ∧
      (v - lo) / (if hi - lo = 0 then 1 else hi - lo) ≤ 1 := by
  by_cases h : hi - lo = 0
  · have hv : v = lo := le_antisymm (by linarith) h1
    simp [h, hv]
  · have hpos : 0 < hi - lo := lt_of_le_of_ne (by linarith) (Ne.symm h)
    constructor
    · simp only [if_neg h]
      exact div_nonneg (by linarith) (le_of_lt hpos)
    · simp only [if_neg h]
      rw [div_le_one hpos]
      linarith

/-- Joint names produced by the SMPL mapping are canonical. -/
lemma visibleOf_names (joints3d : List (ℚ × ℚ × ℚ)) (v : String × Pt)
    (hv : v ∈ visibleOf joints3d) : v.1 ∈ JOINT_NAMES := by
  rcases List.mem_filterMap.mp hv with ⟨p, hp, hval⟩
  rcases Option.map_eq_some'.mp hval with ⟨j, _, hj⟩
  have hname : v.1 = p.2 := by rw [← hj]
  rw [hname]
  have : ∀ q ∈ smplPairs, q.2 ∈ JOINT_NAMES := by decide
  exact this p hp

/-- The normaliser always produces a well-formed pose. -/
lemma project_poseOK (joints3d : List (ℚ × ℚ × ℚ)) :
    poseOK (project_smpl_to_2d joints3d) := by
  intro e he
  unfold project_smpl_to_2d at he
  by_cases hvis : (visibleOf joints3d).isEmpty
  · simp [hvis] at he
  · simp only [hvis, Bool.false_eq_true, if_false] at he
    rcases List.mem_map.mp he with ⟨v, hv, hve⟩
    have hx1 : listMin ((visibleOf joints3d).map fun w => w.2.1) ≤ v.2.1 :=
      listMin_le _ _ (List.mem_map_of_mem _ hv)
    have hx2 : v.2.1 ≤ listMax ((visibleOf joints3d).map fun w => w.2.1) :=
      le_listMax _ _ (List.mem_map_of_mem _ hv)
    have hy1 : listMin ((visibleOf joints3d).map fun w => w.2.2) ≤ v.2.2 :=
      listMin_le _ _ (List.mem_map_of_mem _ hv)
    have hy2 : v.2.2 ≤ listMax ((visibleOf joints3d).map fun w => w.2.2) :=
      le_listMax _ _ (List.mem_map_of_mem _ hv)
    have hx := norm_coord_mem_unit _ _ _ hx1 hx2
    have hy := norm_coord_mem_unit _ _ _ hy1 hy2
    rw [← hve]
    refine ⟨visibleOf_names joints3d v hv, hx.1, hx.2, ?_, ?_⟩
    · simp only []
      linarith [hy.2]
    · simp only []
      linarith [hy.1]

lemma base_pose_poseOK : poseOK base_pose := by
  intro e he
  simp only [base_pose, List.mem_cons, List.not_mem_nil, or_false] at he
  rcases he with rfl | rfl | rfl | rfl | rfl | rfl | rfl | rfl | rfl | rfl |
    rfl | rfl | rfl <;>
    refine ⟨by simp [JOINT_NAMES], by norm_num, by norm_num, by norm_num,
      by norm_num⟩

lemma arms_up_poseOK (sinpi : ℚ → ℚ) (hs : ∀ x, |sinpi x| ≤ 1) (t : ℚ) :
    poseOK (arms_up sinpi t) := by
  have h0 : 0 ≤ |sinpi t| := abs_nonneg _
  have h1 : |sinpi t| ≤ 1 := hs t
  intro e he
  simp only [arms_up, List.mem_cons, List.not_mem_nil, or_false] at he
  rcases he with rfl | rfl | rfl | rfl | rfl | rfl | rfl | rfl | rfl | rfl |
    rfl | rfl | rfl <;>
    refine ⟨by simp [JOINT_NAMES], by norm_num, by norm_num, by nlinarith,
      by nlinarith⟩

lemma side_step_poseOK (sinpi : ℚ → ℚ) (hs : ∀ x, |sinpi x| ≤ 1)
    (t d : ℚ) (hd : d = 1 ∨ d = -1) : poseOK (side_step sinpi t d) := by
  have h0 : 0 ≤ |sinpi t| := abs_nonneg _
  have h1 : |sinpi t| ≤ 1 := hs t
  have hsh : -0.06 ≤ d * 0.06 * |sinpi t| ∧ d * 0.06 * |sinpi t| ≤ 0.06 := by
    rcases hd with rfl | rfl
    · constructor <;> nlinarith
    · constructor <;> nlinarith
  intro e he
  simp only [side_step, List.mem_cons, List.not_mem_nil, or_false] at he
  rcases he with rfl | rfl | rfl | rfl | rfl | rfl | rfl | rfl | rfl | rfl |
    rfl | rfl | rfl <;>
    refine ⟨by simp [JOINT_NAMES], by nlinarith [hsh.1, hsh.2],
      by nlinarith [hsh.1, hsh.2], by norm_num, by norm_num⟩

lemma wave_arms_poseOK (sinpi : ℚ → ℚ) (hs : ∀ x, |sinpi x| ≤ 1) (t : ℚ) :
    poseOK (wave_arms sinpi t) := by
  have hw := abs_le.mp (hs (2 * t))
  intro e he
  simp only [wave_arms, List.mem_cons, List.not_mem_nil, or_false] at he
  rcases he with rfl | rfl | rfl | rfl | rfl | rfl | rfl | rfl | rfl | rfl |
    rfl | rfl | rfl <;>
    refine ⟨by simp [JOINT_NAMES], by nlinarith [hw.1, hw.2],
      by nlinarith [hw.1, hw.2], by nlinarith [hw.1, hw.2],
      by nlinarith [hw.1, hw.2]⟩

lemma dirOf_cases (i : Nat) : dirOf i = 1 ∨ dirOf i = -1 := by
  unfold dirOf
  by_cases h : (i / 4) % 2 = 0 <;> simp [h]

lemma frameAt_poseOK (sinpi : ℚ → ℚ) (hs : ∀ x, |sinpi x| ≤ 1) (i : Nat) :
    poseOK (frameAt sinpi i) := by
  unfold frameAt
  by_cases h13 : (i / 4) % 4 = 1 ∨ (i / 4) % 4 = 3
  · simp only [h13, if_true]
    exact side_step_poseOK sinpi hs _ _ (dirOf_cases i)
  · by_cases h0 : (i / 4) % 4 = 0
    · simp only [h13, if_false, h0, if_true]
      exact arms_up_poseOK sinpi hs _
    · simp only [h13, if_false, h0]
      exact wave_arms_poseOK sinpi hs _

/-- Shape of the sequencer loop's output: element `k` pairs beat `k` with
the pose for beat index `i0 + k`. -/
lemma seqFrames_getElem (sinpi : ℚ → ℚ) (dur : ℚ) :
    ∀ (beats : List ℚ) (i0 k : Nat)
      (h : k < (seqFrames sinpi dur i0 beats).length),
      ∃ hb : k < beats.length,
        (seqFrames sinpi dur i0 beats)[k] =
          (beats[k], frameAt sinpi (i0 + k)) := by
  intro beats
  induction beats with
  | nil => intro i0 k h; simp [seqFrames] at h
  | cons t rest ih =>
    intro i0 k h
    simp only [seqFrames] at h ⊢
    by_cases hd : dur < t
    · simp [hd] at h
    · simp only [hd, if_false] at h ⊢
      cases k with
      | zero => exact ⟨by simp, by simp⟩
      | succ k' =>
        simp only [List.length_cons, Nat.succ_lt_succ_iff] at h
        obtain ⟨hb, heq⟩ := ih (i0 + 1) k' h
        refine ⟨by simpa using Nat.succ_lt_succ hb, ?_⟩
        simpa [Nat.add_assoc, Nat.add_comm 1 k'] using heq

/-- Every pose the sequencer emits is `frameAt` of some beat index. -/
lemma seqFrames_poses (sinpi : ℚ → ℚ) (dur : ℚ) :
    ∀ (beats : List ℚ) (i0 : Nat) (f : Keyframe),
      f ∈ seqFrames sinpi dur i0 beats → ∃ i, f.2 = frameAt sinpi i := by
  intro beats
  induction beats with
  | nil => intro i0 f h; simp [seqFrames] at h
  | cons t rest ih =>
    intro i0 f h
    simp only [seqFrames] at h
    by_cases hd : dur < t
    · simp [hd] at h
    · simp only [hd, if_false, List.mem_cons] at h
      rcases h with rfl | h'
      · exact ⟨i0, rfl⟩
      · exact ih (i0 + 1) f h'

/-- The sequencer's timestamps are exactly the longest prefix of the beat
list whose timestamps do not exceed the duration. -/
lemma seqFrames_timestamps (sinpi : ℚ → ℚ) (dur : ℚ) :
    ∀ (beats : List ℚ) (i0 : Nat),
      (seqFrames sinpi dur i0 beats).map Prod.fst =
        beats.takeWhile fun t => decide (t ≤ dur) := by
  intro beats
  induction beats with
  | nil => intro i0; simp [seqFrames]
  | cons t rest ih =>
    intro i0
    simp only [seqFrames, List.takeWhile_cons]
    by_cases hd : dur < t
    · have : decide (t ≤ dur) = false := by
        simp [decide_eq_false_iff_not, not_le, hd]
      simp [hd, this]
    · have : decide (t ≤ dur) = true := by
        simp [not_lt.mp hd]
      simp [hd, this, ih (i0 + 1)]

lemma foldl_min_mem (xs : List ℚ) (x : ℚ) :
    xs.foldl min x = x ∨ xs.foldl min x ∈ xs := by
  induction xs generalizing x with
  | nil => exact Or.inl rfl
  | cons y ys ih =>
    rcases ih (min x y) with h | h
    · rcases min_choice x y with hm | hm
      · exact Or.inl (by rw [List.foldl_cons, h, hm])
      · exact Or.inr (by rw [List.foldl_cons, h, hm]; exact List.mem_cons_self _ _)
    · exact Or.inr (List.mem_cons_of_mem _ h)

lemma listMin_mem (l : List ℚ) (h : l ≠ []) : listMin l ∈ l := by
  cases l with
  | nil => exact absurd rfl h
  | cons x xs =>
    rcases foldl_min_mem xs x with h' | h'
    · rw [listMin, h']; exact List.mem_cons_self _ _
    · exact List.mem_cons_of_mem _ h'

lemma foldl_max_mem (xs : List ℚ) (x : ℚ) :
    xs.foldl max x = x ∨ xs.foldl max x ∈ xs := by
  induction xs generalizing x with
  | nil => exact Or.inl rfl
  | cons y ys ih =>
    rcases ih (max x y) with h | h
    · rcases max_choice x y with hm | hm
      · exact Or.inl (by rw [List.foldl_cons, h, hm])
      · exact Or.inr (by rw [List.foldl_cons, h, hm]; exact List.mem_cons_self _ _)
    · exact Or.inr (List.mem_cons_of_mem _ h)

lemma listMax_mem (l : List ℚ) (h : l ≠ []) : listMax l ∈ l := by
  cases l with
  | nil => exact absurd rfl h
  | cons x xs =>
    rcases foldl_max_mem xs x with h' | h'
    · rw [listMax, h']; exact List.mem_cons_self _ _
    · exact List.mem_cons_of_mem _ h'

/-- Frames returned by the ML tier are projector outputs, hence
well-formed. -/
lemma try_edge_frames_poseOK (e : EdgeEnv) (fs : List Keyframe)
    (h : (try_edge_generation e).2 = some fs) :
    ∀ f ∈ fs, poseOK f.2 := by
  intro f hf
  unfold try_edge_generation at h
  by_cases h1 : e.torchOk
  case neg => simp [h1] at h
  by_cases h2 : e.specFound
  case neg => simp [h1, h2] at h
  by_cases h3 : e.loadOk
  case neg => simp [h1, h2, h3] at h
  rcases hio : e.inferOut with _ | out
  · rw [hio] at h; simp [h1, h2, h3] at h
  rw [hio] at h
  simp only [h1, h2, h3, Bool.not_true, Bool.not_false, Bool.false_eq_true,
    Bool.true_eq_false, if_true, if_false, reduceIte] at h
  by_cases hemp : (edgeProj out).isEmpty
  · simp [hemp] at h
  · simp only [hemp, Bool.false_eq_true, if_false, reduceIte,
      Option.some.injEq] at h
    subst h
    rcases List.mem_filterMap.mp hf with ⟨tp, _, htp⟩
    simp only at htp
    by_cases hj : (project_smpl_to_2d tp.2).isEmpty
    · simp [hj] at htp
    · simp only [hj, Bool.false_eq_true, if_false, Option.some.injEq] at htp
      rw [← htp]
      exact project_poseOK tp.2

/-- Frames returned by the sequencer are move-library poses, hence
well-formed. -/
lemma template_frames_poseOK (sinpi : ℚ → ℚ) (hs : ∀ x, |sinpi x| ≤ 1)
    (bpm dur : ℚ) (beats : List ℚ) (fs : List Keyframe)
    (h : generate_template_choreo sinpi bpm beats dur = some fs) :
    ∀ f ∈ fs, poseOK f.2 := by
  intro f hf
  unfold generate_template_choreo at h
  by_cases hb : bpm = 0
  · simp [hb] at h
  · simp only [hb, if_false, Option.some.injEq] at h
    subst h
    obtain ⟨i, hi⟩ := seqFrames_poses sinpi dur beats 0 f hf
    rw [hi]
    exact frameAt_poseOK sinpi hs i

/-- Provenance of the final frames: a successful run's choreography frames
are either exactly the ML tier's output, or (when the ML tier returned
`None`) exactly the sequencer's output on the analysed values. -/
lemma generate_frames_cases (sinpi : ℚ → ℚ) (g : GenEnv) (c : Choreography)
    (hc : (generate sinpi g).2 = some c) :
    (try_edge_generation g.edge).2 = some c.frames ∨
      ((try_edge_generation g.edge).2 = none ∧
        generate_template_choreo sinpi (analysisBpm g) (analysisBeats g)
          (analysisDuration g) = some c.frames) := by
  unfold generate at hc
  by_cases hm : g.mkdirOk
  case neg => simp [hm] at hc
  by_cases hw : g.writeAnalysisOk
  case neg => simp [hm, hw] at hc
  simp only [hm, hw, Bool.not_true, Bool.not_false, Bool.false_eq_true,
    Bool.true_eq_false, if_true, if_false, reduceIte] at hc
  rcases hE : (try_edge_generation g.edge).2 with _ | fs
  · rw [hE] at hc
    rcases hT : generate_template_choreo sinpi (analyzeStage g).2.1
        (analyzeStage g).2.2.2 (analyzeStage g).2.2.1 with _ | fs'
    · rw [hT] at hc; exact absurd hc (by simp)
    · rw [hT] at hc
      unfold saveTail at hc
      by_cases hwc : g.writeChoreoOk
      · simp only [hwc, if_true, Option.some.injEq] at hc
        subst hc
        refine Or.inr ⟨rfl, ?_⟩
        unfold analysisBpm analysisBeats analysisDuration
        exact hT
      · simp [hwc] at hc
  · rw [hE] at hc
    unfold saveTail at hc
    by_cases hwc : g.writeChoreoOk
    · simp only [hwc, if_true, Option.some.injEq] at hc
      subst hc
      exact Or.inl rfl
    · simp [hwc] at hc

/-- The entry whose raw x equals the minimum maps to output x `0`. -/
lemma project_minX_zero (joints3d : List (ℚ × ℚ × ℚ)) (v : String × Pt)
    (hv : v ∈ visibleOf joints3d)
    (hmin : v.2.1 = listMin ((visibleOf joints3d).map fun w => w.2.1)) :
    ∃ e ∈ project_smpl_to_2d joints3d, e.1 = v.1 ∧ e.2.1 = 0 := by
  have hvisF : (visibleOf joints3d).isEmpty = false := by
    rcases hvis : visibleOf joints3d with _ | ⟨a, l⟩
    · rw [hvis] at hv; cases hv
    · rfl
  simp only [project_smpl_to_2d, hvisF, Bool.false_eq_true, if_false,
    reduceIte]
  refine ⟨_, List.mem_map_of_mem _ hv, rfl, ?_⟩
  simp only [hmin, sub_self, zero_div]

/-- When all visible raw points coincide, every output is the corner
`(0, 1)` (both extents are substituted by `1`). -/
lemma project_const_corner (joints3d : List (ℚ × ℚ × ℚ)) (q : Pt)
    (hq : ∀ v ∈ visibleOf joints3d, v.2 = q)
    (hne : visibleOf joints3d ≠ []) :
    ∀ e ∈ project_smpl_to_2d joints3d, e.2 = (0, 1) := by
  intro e he
  have hvisF : (visibleOf joints3d).isEmpty = false := by
    rcases hvis : visibleOf joints3d with _ | ⟨a, l⟩
    · exact absurd hvis hne
    · rfl
  simp only [project_smpl_to_2d, hvisF, Bool.false_eq_true, if_false,
    reduceIte] at he
  rcases List.mem_map.mp he with ⟨v, hv, hve⟩
  have hxconst : ∀ x ∈ (visibleOf joints3d).map fun w => w.2.1, x = q.1 := by
    intro x hx
    rcases List.mem_map.mp hx with ⟨w, hw, hwe⟩
    rw [← hwe, hq w hw]
  have hyconst : ∀ y ∈ (visibleOf joints3d).map fun w => w.2.2, y = q.2 := by
    intro y hy
    rcases List.mem_map.mp hy with ⟨w, hw, hwe⟩
    rw [← hwe, hq w hw]
  have hxne : ((visibleOf joints3d).map fun w => w.2.1) ≠ [] := by
    simpa using hne
  have hyne : ((visibleOf joints3d).map fun w => w.2.2) ≠ [] := by
    simpa using hne
  have hminx := hxconst _ (listMin_mem _ hxne)
  have hmaxx := hxconst _ (listMax_mem _ hxne)
  have hminy := hyconst _ (listMin_mem _ hyne)
  have hmaxy := hyconst _ (listMax_mem _ hyne)
  have hvq := hq v hv
  rw [← hve]
  simp only [hminx, hmaxx, hminy, hmaxy, hvq, sub_self, zero_div, if_pos rfl]
  norm_num

/-- Claim C1: on empty visible input the normaliser returns the empty
mapping (and, being a total function, raises no error); on non-empty
visible input every output coordinate lies in `[0, 1]`, any entry whose
raw x is the minimum maps to output x `0`, and when all visible points
coincide (zero extent on both axes, extent substituted by `1`) every
output is the fixed corner `(0, 1)` with no division error. -/
theorem projector_normalization (joints3d : List (ℚ × ℚ × ℚ)) :
    (visibleOf joints3d = [] → project_smpl_to_2d joints3d = []) ∧
    (visibleOf joints3d ≠ [] →
      (∀ e ∈ project_smpl_to_2d joints3d,
        0 ≤ e.2.1 ∧ e.2.1 ≤ 1 ∧ 0 ≤ e.2.2 ∧ e.2.2 ≤ 1) ∧
      (∀ v ∈ visibleOf joints3d,
        v.2.1 = listMin ((visibleOf joints3d).map fun w => w.2.1) →
        ∃ e ∈ project_smpl_to_2d joints3d, e.1 = v.1 ∧ e.2.1 = 0) ∧
      (∀ q : Pt, (∀ v ∈ visibleOf joints3d, v.2 = q) →
        ∀ e ∈ project_smpl_to_2d joints3d, e.2 = (0, 1))) := by
  refine ⟨fun h => by simp [project_smpl_to_2d, h], fun hne => ⟨?_, ?_, ?_⟩⟩
  · exact fun e he => (project_poseOK joints3d e he).2
  · exact fun v hv hmin => project_minX_zero joints3d v hv hmin
  · exact fun q hq => project_const_corner joints3d q hq hne

/-- Witness for C1 at the concrete input `[(0,0,0), (3,4,5)]`: exactly one
mapped joint (`left_hip`, SMPL index 1) is visible, and its output is the
corner `(0, 1)`. -/
theorem projector_normalization_witness :
    visibleOf [((0:ℚ), (0:ℚ), (0:ℚ)), (3, 4, 5)] ≠ [] ∧
    ∀ e ∈ project_smpl_to_2d [((0:ℚ), (0:ℚ), (0:ℚ)), (3, 4, 5)],
      e.2 = (0, 1) := by
  have hvis : visibleOf [((0:ℚ), (0:ℚ), (0:ℚ)), (3, 4, 5)] =
      [("left_hip", (3, 4))] := by
    simp [visibleOf, smplPairs]
  have hne : visibleOf [((0:ℚ), (0:ℚ), (0:ℚ)), (3, 4, 5)] ≠ [] := by
    rw [hvis]; simp
  have h := (projector_normalization [((0:ℚ), (0:ℚ), (0:ℚ)), (3, 4, 5)]).2 hne
  refine ⟨hne, h.2.2 (3, 4) ?_⟩
  rw [hvis]
  simp

/-- Claim C4: the sequencer emits exactly one keyframe per beat, with the
beat's own timestamp, up to but excluding the first beat whose timestamp
strictly exceeds the duration. -/
theorem sequencer_truncation (sinpi : ℚ → ℚ) (bpm : ℚ) (beats : List ℚ)
    (dur : ℚ) (hb : bpm ≠ 0) :
    ∃ fs, generate_template_choreo sinpi bpm beats dur = some fs ∧
      fs.map Prod.fst = beats.takeWhile fun t => decide (t ≤ dur) := by
  exact ⟨seqFrames sinpi dur 0 beats,
    by simp [generate_template_choreo, hb],
    seqFrames_timestamps sinpi dur beats 0⟩

/-- Witness for C4 at `beatTimes = [0, 0.5, 1.0, 1.5, 2.0]`,
`duration = 1.2`: exactly 3 frames, with timestamps `0, 0.5, 1.0`. -/
theorem sequencer_truncation_witness :
    ∃ fs, generate_template_choreo (fun _ => 0) 120 [0, 0.5, 1.0, 1.5, 2.0]
        1.2 = some fs ∧
      fs.map Prod.fst = [0, 0.5, 1.0] ∧ fs.length = 3 := by
  obtain ⟨fs, h1, h2⟩ := sequencer_truncation (fun _ => 0) 120
    [0, 0.5, 1.0, 1.5, 2.0] 1.2 (by norm_num)
  have h3 : fs.map Prod.fst = [0, 0.5, 1.0] := by
    rw [h2]
    norm_num [List.takeWhile_cons]
  have h4 : fs.length = 3 := by
    have := congrArg List.length h3
    simpa using this
  exact ⟨fs, h1, h3, h4⟩

/-- Claim C6: the ML tier is a total function (every internal failure is
absorbed) whose result is either `none` or a non-empty frame list. -/
theorem edge_tier_total (e : EdgeEnv) :
    (try_edge_generation e).2 = none ∨
      ∃ fs, (try_edge_generation e).2 = some fs ∧ fs ≠ [] := by
  unfold try_edge_generation
  by_cases h1 : e.torchOk
  case neg => simp [h1]
  by_cases h2 : e.specFound
  case neg => simp [h1, h2]
  by_cases h3 : e.loadOk
  case neg => simp [h1, h2, h3]
  rcases e.inferOut with _ | out
  · simp [h1, h2, h3]
  · simp only [h1, h2, h3, Bool.not_true, Bool.false_eq_true, if_false,
      reduceIte]
    by_cases hemp : (edgeProj out).isEmpty
    · left; simp [hemp]
    · right
      refine ⟨edgeProj out, by simp [hemp], ?_⟩
      simpa [List.isEmpty_iff] using hemp

/-- Claim C10: the sequencer's output is independent of any nonzero `bpm`
(the computed beat interval is never read), while `bpm = 0` raises a
`ZeroDivisionError`. -/
theorem sequencer_bpm_independent (sinpi : ℚ → ℚ) (bpm bpm' : ℚ)
    (beats : List ℚ) (dur : ℚ) (h : bpm ≠ 0) (h' : bpm' ≠ 0) :
    generate_template_choreo sinpi bpm beats dur =
      generate_template_choreo sinpi bpm' beats dur ∧
    generate_template_choreo sinpi 0 beats dur = none := by
  exact ⟨by simp [generate_template_choreo, h, h'],
    by simp [generate_template_choreo]⟩

/-- Witness for C10 at `bpm = 90` versus `bpm' = 140`. -/
theorem sequencer_bpm_independent_witness :
    generate_template_choreo (fun _ => 0) 90 [0, 1] 5 =
      generate_template_choreo (fun _ => 0) 140 [0, 1] 5 ∧
    generate_template_choreo (fun _ => 0) 0 [0, 1] 5 = none :=
  sequencer_bpm_independent (fun _ => 0) 90 140 [0, 1] 5 (by norm_num)
    (by norm_num)

/-- The source's function-identity dispatch (lines 147–150) agrees with
indexing the move cycle at `(i / 4) % 4`. -/
lemma frameAt_eq_moveFuns (sinpi : ℚ → ℚ) (i : Nat) :
    frameAt sinpi i =
      ((moveFuns sinpi (dirOf i)).getD ((i / 4) % 4) fun _ => [])
        ((i % 4 : ℕ) / 4) := by
  have h4 : (i / 4) % 4 = 0 ∨ (i / 4) % 4 = 1 ∨ (i / 4) % 4 = 2 ∨
      (i / 4) % 4 = 3 := by omega
  unfold frameAt moveFuns
  rcases h4 with h | h | h | h <;> rw [h] <;> simp [List.getD]

/-- Claim C2: for every emitted keyframe at beat index `i`, the timestamp
is beat `i`'s time and the pose is the move at position `(i / 4) % 4` of
the cycle `[armsUp, sideStep, waveArms, sideStep]` evaluated at phase
`(i % 4) / 4`, the alternating direction reaching only the `sideStep`
entries. -/
theorem sequencer_move_selection (sinpi : ℚ → ℚ) (bpm : ℚ) (beats : List ℚ)
    (dur : ℚ) (fs : List Keyframe)
    (hf : generate_template_choreo sinpi bpm beats dur = some fs)
    (i : Nat) (h : i < fs.length) :
    ∃ t, beats[i]? = some t ∧
      fs[i]? = some (t,
        ((moveFuns sinpi (dirOf i)).getD ((i / 4) % 4) fun _ => [])
          ((i % 4 : ℕ) / 4)) := by
  unfold generate_template_choreo at hf
  by_cases hbpm : bpm = 0
  · simp [hbpm] at hf
  · simp only [hbpm, if_false, Option.some.injEq, reduceIte] at hf
    subst hf
    obtain ⟨hb, heq⟩ := seqFrames_getElem sinpi dur beats 0 i h
    refine ⟨beats[i], List.getElem?_eq_getElem hb, ?_⟩
    rw [List.getElem?_eq_getElem h, heq, Nat.zero_add, frameAt_eq_moveFuns]

/-- Witness for C2 at beat index 1 of `beatTimes = [0, 1]` (the second
emitted keyframe). -/
theorem sequencer_move_selection_witness :
    ∃ t, ([(0:ℚ), 1])[1]? = some t ∧
      (seqFrames (fun _ => 0) 5 0 [0, 1])[1]? = some (t,
        ((moveFuns (fun _ => 0) (dirOf 1)).getD ((1 / 4) % 4) fun _ => [])
          ((1 % 4 : ℕ) / 4)) := by
  have hf : generate_template_choreo (fun _ => 0) 120 [0, 1] 5 =
      some (seqFrames (fun _ => 0) 5 0 [0, 1]) := by
    norm_num [generate_template_choreo]
  have hlen : 1 < (seqFrames (fun _ => (0:ℚ)) 5 0 [0, 1]).length := by
    norm_num [seqFrames]
  exact sequencer_move_selection (fun _ => 0) 120 [0, 1] 5 _ hf 1 hlen

/-- Claim C3 counterexample: at `beatTimes = [0,...,7]` the keyframe at
beat index 1 carries the `arms_up` pose at phase `1/4`, not the
`side_step` pose with direction `+1` the claim requires (each move spans
four consecutive beats, so beats 0–3 are all `arms_up`). -/
theorem sequencer_cycling_counterexample :
    ∃ fs, generate_template_choreo (fun _ => 0) 120 [0, 1, 2, 3, 4, 5, 6, 7]
        7 = some fs ∧
      fs[1]? = some (1, arms_up (fun _ => 0) (1 / 4)) ∧
      arms_up (fun _ => 0) (1 / 4) ≠ side_step (fun _ => 0) (1 / 4) 1 := by
  refine ⟨seqFrames (fun _ => 0) 7 0 [0, 1, 2, 3, 4, 5, 6, 7],
    by norm_num [generate_template_choreo], ?_, ?_⟩
  · norm_num [seqFrames, frameAt, dirOf]
  · norm_num [arms_up, side_step]

/-- Claim C3 amended: each move spans four consecutive beats, so for
`beatTimes = [0,...,7]` beats 0–3 all use `armsUp` at phases
`0, 1/4, 2/4, 3/4`, and beats 4–7 all use `sideStep` at those phases with
direction `-1` (the second move cycle is odd). -/
theorem sequencer_cycling_amended (sinpi : ℚ → ℚ) (bpm dur : ℚ)
    (hb : bpm ≠ 0) (hd : 7 ≤ dur) :
    ∃ fs, generate_template_choreo sinpi bpm [0, 1, 2, 3, 4, 5, 6, 7] dur =
        some fs ∧
      fs.map Prod.fst = [0, 1, 2, 3, 4, 5, 6, 7] ∧
      fs.map Prod.snd = [arms_up sinpi 0, arms_up sinpi (1 / 4),
        arms_up sinpi (2 / 4), arms_up sinpi (3 / 4),
        side_step sinpi 0 (-1), side_step sinpi (1 / 4) (-1),
        side_step sinpi (2 / 4) (-1), side_step sinpi (3 / 4) (-1)] := by
  have h0 : ¬ (dur < (0:ℚ)) := by linarith
  have h1 : ¬ (dur < (1:ℚ)) := by linarith
  have h2 : ¬ (dur < (2:ℚ)) := by linarith
  have h3 : ¬ (dur < (3:ℚ)) := by linarith
  have h4 : ¬ (dur < (4:ℚ)) := by linarith
  have h5 : ¬ (dur < (5:ℚ)) := by linarith
  have h6 : ¬ (dur < (6:ℚ)) := by linarith
  have h7 : ¬ (dur < (7:ℚ)) := by linarith
  refine ⟨seqFrames sinpi dur 0 [0, 1, 2, 3, 4, 5, 6, 7],
    by simp [generate_template_choreo, hb], ?_, ?_⟩
  · simp [seqFrames, h0, h1, h2, h3, h4, h5, h6, h7]
  · norm_num [seqFrames, frameAt, dirOf, h0, h1, h2, h3, h4, h5, h6, h7]

/-- Witness for the amended C3 at `bpm = 120`, `duration = 7`. -/
theorem sequencer_cycling_amended_witness :
    ∃ fs, generate_template_choreo (fun _ => 0) 120 [0, 1, 2, 3, 4, 5, 6, 7]
        7 = some fs ∧
      fs.map Prod.fst = [0, 1, 2, 3, 4, 5, 6, 7] ∧
      fs.map Prod.snd = [arms_up (fun _ => 0) 0, arms_up (fun _ => 0) (1 / 4),
        arms_up (fun _ => 0) (2 / 4), arms_up (fun _ => 0) (3 / 4),
        side_step (fun _ => 0) 0 (-1), side_step (fun _ => 0) (1 / 4) (-1),
        side_step (fun _ => 0) (2 / 4) (-1),
        side_step (fun _ => 0) (3 / 4) (-1)] :=
  sequencer_cycling_amended (fun _ => 0) 120 7 (by norm_num) (by norm_num)

/-- Claim C5: whenever the ML tier returns `None`, the frames of the
assembled Choreography are exactly the sequencer's output for the analysed
`(bpm, beatTimes, duration)`. -/
theorem ml_fallback_frames (sinpi : ℚ → ℚ) (g : GenEnv) (c : Choreography)
    (hc : (generate sinpi g).2 = some c)
    (hml : (try_edge_generation g.edge).2 = none) :
    generate_template_choreo sinpi (analysisBpm g) (analysisBeats g)
      (analysisDuration g) = some c.frames := by
  rcases generate_frames_cases sinpi g c hc with h | h
  · rw [hml] at h; cases h
  · exact h.2

/-- Witness for C5 on a run whose ML tier is unavailable (`torch` import
fails). -/
theorem ml_fallback_frames_witness :
    ∃ c, (generate (fun _ => (0:ℚ))
        ⟨true, true, some (10, 120, [0, 1, 2]), none, true,
         ⟨false, false, false, none⟩, true, "x"⟩).2 = some c ∧
      generate_template_choreo (fun _ => 0)
        (analysisBpm ⟨true, true, some (10, 120, [0, 1, 2]), none, true,
          ⟨false, false, false, none⟩, true, "x"⟩)
        (analysisBeats ⟨true, true, some (10, 120, [0, 1, 2]), none, true,
          ⟨false, false, false, none⟩, true, "x"⟩)
        (analysisDuration ⟨true, true, some (10, 120, [0, 1, 2]), none, true,
          ⟨false, false, false, none⟩, true, "x"⟩) = some c.frames := by
  have hc : (generate (fun _ => (0:ℚ))
      ⟨true, true, some (10, 120, [0, 1, 2]), none, true,
       ⟨false, false, false, none⟩, true, "x"⟩).2 =
      some ⟨"x", 120, 10, seqFrames (fun _ => 0) 10 0 [0, 1, 2]⟩ := by rfl
  exact ⟨_, hc, ml_fallback_frames (fun _ => 0) _ _ hc rfl⟩

/-- Claim C7 counterexample: with `bpm = 120` and `duration = 1.2` the
grid is `[0, 0.5]`, yet beat `i = 2` has time `1.0 ∈ [0, duration)` and is
absent (`int(duration / interval)` floors `2.4` to `2`). -/
theorem uniform_grid_counterexample :
    uniformGrid 120 1.2 = [0, 1 / 2] ∧
    (2:ℚ) * (60 / 120) = 1 ∧ (0:ℚ) ≤ 1 ∧ (1:ℚ) < 1.2 ∧
      (1:ℚ) ∉ uniformGrid 120 1.2 := by
  have hg : uniformGrid 120 1.2 = [0, 1 / 2] := by
    unfold uniformGrid
    rw [show List.range (Int.toNat ⌊(1.2:ℚ) / (60 / 120)⌋) = [0, 1] by
      rw [show ⌊(1.2:ℚ) / (60 / 120)⌋ = 2 by norm_num]
      rfl]
    rw [List.map_cons, List.map_cons, List.map_nil]
    norm_num
  refine ⟨hg, by norm_num, by norm_num, by norm_num, ?_⟩
  rw [hg]
  norm_num

/-- Claim C7 amended: the synthesized grid contains beat `i` at
`i * 60/bpm` seconds for exactly those `i` with
`(i + 1) * 60/bpm ≤ duration` (equivalently `i < ⌊duration·bpm/60⌋`) —
one beat fewer than "time within `[0, duration)`" whenever
`duration·bpm/60` is not an integer. -/
theorem uniform_grid_membership (bpm dur : ℚ) (hb : 0 < bpm) (i : ℕ) :
    ((i : ℚ) * (60 / bpm) ∈ uniformGrid bpm dur) ↔
      ((i : ℚ) + 1) * (60 / bpm) ≤ dur := by
  have hint : (0:ℚ) < 60 / bpm := by positivity
  unfold uniformGrid
  rw [List.mem_map]
  constructor
  · rintro ⟨j, hj, hje⟩
    rw [List.mem_range] at hj
    have hji : (j:ℚ) = (i:ℚ) := mul_right_cancel₀ (ne_of_gt hint) hje
    have hji2 : j = i := by exact_mod_cast hji
    subst hji2
    have h1 : (j:ℤ) < ⌊dur / (60 / bpm)⌋ := Int.lt_toNat.mp hj
    have h2 : (((j:ℤ) + 1 : ℤ) : ℚ) ≤ dur / (60 / bpm) :=
      Int.le_floor.mp (Int.add_one_le_iff.mpr h1)
    have h3 : ((j:ℚ) + 1) ≤ dur / (60 / bpm) := by
      push_cast at h2
      linarith
    calc ((j:ℚ) + 1) * (60 / bpm)
        ≤ (dur / (60 / bpm)) * (60 / bpm) :=
          mul_le_mul_of_nonneg_right h3 (le_of_lt hint)
      _ = dur := div_mul_cancel₀ dur (ne_of_gt hint)
  · intro h
    refine ⟨i, ?_, rfl⟩
    rw [List.mem_range, Int.lt_toNat, ← Int.add_one_le_iff, Int.le_floor]
    have h3 : ((i:ℚ) + 1) ≤ dur / (60 / bpm) := (le_div_iff₀ hint).mpr h
    push_cast
    exact h3

/-- Witness for the amended C7 at `bpm = 120`, `duration = 2`, `i = 1`. -/
theorem uniform_grid_membership_witness :
    ((1:ℕ) : ℚ) * (60 / 120) ∈ uniformGrid 120 2 :=
  (uniform_grid_membership 120 2 (by norm_num) 1).mpr (by norm_num)

/-- Claim C8: every keyframe of a successfully assembled choreography,
whichever tier produced it, maps canonical joint names to coordinates in
`[0, 1]`; in particular every template-move pose at any phase (for either
direction) and every normaliser output is well-formed. -/
theorem choreography_pose_invariant (sinpi : ℚ → ℚ)
    (hs : ∀ x, |sinpi x| ≤ 1) :
    (∀ (g : GenEnv) (c : Choreography), (generate sinpi g).2 = some c →
      ∀ f ∈ c.frames, poseOK f.2) ∧
    (∀ t d : ℚ, d = 1 ∨ d = -1 →
      poseOK base_pose ∧ poseOK (arms_up sinpi t) ∧
      poseOK (side_step sinpi t d) ∧ poseOK (wave_arms sinpi t)) ∧
    (∀ joints3d, poseOK (project_smpl_to_2d joints3d)) := by
  refine ⟨?_, ?_, project_poseOK⟩
  · intro g c hc f hf
    rcases generate_frames_cases sinpi g c hc with h | h
    · exact try_edge_frames_poseOK g.edge c.frames h f hf
    · exact template_frames_poseOK sinpi hs _ _ _ _ h.2 f hf
  · intro t d hd
    exact ⟨base_pose_poseOK, arms_up_poseOK sinpi hs t,
      side_step_poseOK sinpi hs t d hd, wave_arms_poseOK sinpi hs t⟩

/-- Witness for C8 with the zero sine at phase `1/2`. -/
theorem choreography_pose_invariant_witness :
    poseOK (arms_up (fun _ => 0) (1 / 2)) ∧
    poseOK (wave_arms (fun _ => 0) (1 / 2)) := by
  have h := choreography_pose_invariant (fun _ => 0) (fun x => by norm_num)
  exact ⟨(h.2.1 (1 / 2) 1 (Or.inl rfl)).2.1,
    (h.2.1 (1 / 2) 1 (Or.inl rfl)).2.2.2⟩

/-- The analysis stage emits either no event or the single fallback
event. -/
lemma analyzeStage_events (g : GenEnv) :
    (analyzeStage g).1 = [] ∨ (analyzeStage g).1 = [evFallback] := by
  unfold analyzeStage fallbackAnalysis
  rcases g.librosa with _ | ⟨d, b, bs⟩
  · simp
  · rcases bs with _ | ⟨t, ts⟩
    · by_cases hb : b = 0 <;> simp [hb]
    · simp

/-- Under `¬edgeLateFail`, the ML tier either returns `none` having
emitted at most the loading milestone, or succeeds having emitted all
three milestones. -/
lemma edge_cases (e : EdgeEnv) (hL : edgeLateFail e = false) :
    ((try_edge_generation e).2 = none ∧
      ((try_edge_generation e).1 = [] ∨
        (try_edge_generation e).1 = [evLoad])) ∨
    (∃ fs, (try_edge_generation e).2 = some fs ∧
      (try_edge_generation e).1 = [evLoad, evInfer, evProject]) := by
  unfold try_edge_generation
  unfold edgeLateFail at hL
  by_cases h1 : e.torchOk
  case neg => simp [h1]
  by_cases h2 : e.specFound
  case neg => simp [h1, h2]
  by_cases h3 : e.loadOk
  case neg => simp [h1, h2, h3]
  rcases hio : e.inferOut with _ | out
  · rw [hio] at hL
    simp [h1, h2, h3] at hL
  · rw [hio] at hL
    simp only [h1, h2, h3, Bool.true_and] at hL
    refine Or.inr ⟨edgeProj out, ?_, ?_⟩ <;> simp [h1, h2, h3, hL]

/-- The saving stage either appends the save and done events around a
successful write, or stops after the save event. -/
lemma saveTail_cases (g : GenEnv) (bpm dur : ℚ) (fs : List Keyframe)
    (evs : List Event) :
    saveTail g bpm dur fs evs =
        (evs ++ [evSave, evDone], some ⟨g.outName, bpm, dur, fs⟩) ∨
      saveTail g bpm dur fs evs = (evs ++ [evSave], none) := by
  unfold saveTail
  by_cases h : g.writeChoreoOk <;> simp [h]

lemma generate_eq_mkdir_fail (sinpi : ℚ → ℚ) (g : GenEnv)
    (hm : g.mkdirOk = false) : generate sinpi g = ([], none) := by
  unfold generate
  simp [hm]

lemma generate_eq_wa_fail (sinpi : ℚ → ℚ) (g : GenEnv)
    (hm : g.mkdirOk = true) (hw : g.writeAnalysisOk = false) :
    generate sinpi g = (evAnalyze :: (analyzeStage g).1, none) := by
  unfold generate
  simp [hm, hw]

lemma generate_eq_ml_some (sinpi : ℚ → ℚ) (g : GenEnv)
    (hm : g.mkdirOk = true) (hw : g.writeAnalysisOk = true)
    (fs : List Keyframe) (hE : (try_edge_generation g.edge).2 = some fs) :
    generate sinpi g = saveTail g (analyzeStage g).2.1 (analyzeStage g).2.2.1
      fs (evAnalyze :: (analyzeStage g).1 ++ [evGenMoves] ++
        (try_edge_generation g.edge).1) := by
  unfold generate
  simp [hm, hw, hE]

lemma generate_eq_ml_none_t_some (sinpi : ℚ → ℚ) (g : GenEnv)
    (hm : g.mkdirOk = true) (hw : g.writeAnalysisOk = true)
    (hE : (try_edge_generation g.edge).2 = none) (fs : List Keyframe)
    (hT : generate_template_choreo sinpi (analyzeStage g).2.1
      (analyzeStage g).2.2.2 (analyzeStage g).2.2.1 = some fs) :
    generate sinpi g = saveTail g (analyzeStage g).2.1 (analyzeStage g).2.2.1
      fs (evAnalyze :: (analyzeStage g).1 ++ [evGenMoves] ++
        (try_edge_generation g.edge).1 ++ [evTemplate]) := by
  unfold generate
  simp [hm, hw, hE, hT]

lemma generate_eq_ml_none_t_none (sinpi : ℚ → ℚ) (g : GenEnv)
    (hm : g.mkdirOk = true) (hw : g.writeAnalysisOk = true)
    (hE : (try_edge_generation g.edge).2 = none)
    (hT : generate_template_choreo sinpi (analyzeStage g).2.1
      (analyzeStage g).2.2.2 (analyzeStage g).2.2.1 = none) :
    generate sinpi g = (evAnalyze :: (analyzeStage g).1 ++ [evGenMoves] ++
      (try_edge_generation g.edge).1 ++ [evTemplate], none) := by
  unfold generate
  simp [hm, hw, hE, hT]

/-- Non-`Error` progress values of `generate`'s trace are non-decreasing
provided the ML tier does not fail after its inference milestones. -/
lemma generate_trace_chain (sinpi : ℚ → ℚ) (g : GenEnv)
    (hL : edgeLateFail g.edge = false) :
    List.Chain' (· ≤ ·) (okProgress (generate sinpi g).1) := by
  by_cases hm : g.mkdirOk
  case neg =>
    rw [generate_eq_mkdir_fail sinpi g (by simpa using hm)]
    simp [okProgress]
  by_cases hw : g.writeAnalysisOk
  case neg =>
    rw [generate_eq_wa_fail sinpi g hm (by simpa using hw)]
    rcases analyzeStage_events g with hA | hA
    · rw [hA]
      simp [okProgress, evAnalyze]
    · rw [hA]
      simp [okProgress, evAnalyze, evFallback, List.chain'_cons]
      norm_num
  rcases edge_cases g.edge hL with ⟨hE2, hE1⟩ | ⟨fs, hE2, hE1⟩
  · rcases hT : generate_template_choreo sinpi (analyzeStage g).2.1
        (analyzeStage g).2.2.2 (analyzeStage g).2.2.1 with _ | fs
    · rw [generate_eq_ml_none_t_none sinpi g hm hw hE2 hT]
      rcases analyzeStage_events g with hA | hA <;>
        rcases hE1 with hE1 | hE1 <;> rw [hA, hE1] <;>
        simp [okProgress, evAnalyze, evFallback, evGenMoves, evLoad,
          evTemplate, List.chain'_cons] <;> try norm_num
    · rw [generate_eq_ml_none_t_some sinpi g hm hw hE2 fs hT]
      rcases saveTail_cases g (analyzeStage g).2.1 (analyzeStage g).2.2.1 fs
          (evAnalyze :: (analyzeStage g).1 ++ [evGenMoves] ++
            (try_edge_generation g.edge).1 ++ [evTemplate]) with hS | hS <;>
        rw [hS] <;> rcases analyzeStage_events g with hA | hA <;>
        rcases hE1 with hE1 | hE1 <;> rw [hA, hE1] <;>
        simp [okProgress, evAnalyze, evFallback, evGenMoves, evLoad,
          evTemplate, evSave, evDone, List.chain'_cons] <;> try norm_num
  · rw [generate_eq_ml_some sinpi g hm hw fs hE2]
    rcases saveTail_cases g (analyzeStage g).2.1 (analyzeStage g).2.2.1 fs
        (evAnalyze :: (analyzeStage g).1 ++ [evGenMoves] ++
          (try_edge_generation g.edge).1) with hS | hS <;>
      rw [hS] <;> rcases analyzeStage_events g with hA | hA <;>
      rw [hA, hE1] <;>
      simp [okProgress, evAnalyze, evFallback, evGenMoves, evLoad, evInfer,
        evProject, evSave, evDone, List.chain'_cons] <;> try norm_num

lemma getLast?_append_pair (l : List Event) (a b : Event) :
    (l ++ [a, b]).getLast? = some b := by
  rw [show [a, b] = [a] ++ [b] from rfl, ← List.append_assoc]
  exact List.getLast?_concat _

/-- A successful run's final emitted event is `Done` at progress `1`. -/
lemma generate_some_lastEvent (sinpi : ℚ → ℚ) (g : GenEnv)
    (c : Choreography) (hc : (generate sinpi g).2 = some c) :
    (generate sinpi g).1.getLast? = some evDone := by
  by_cases hm : g.mkdirOk
  case neg =>
    rw [generate_eq_mkdir_fail sinpi g (by simpa using hm)] at hc
    simp at hc
  by_cases hw : g.writeAnalysisOk
  case neg =>
    rw [generate_eq_wa_fail sinpi g hm (by simpa using hw)] at hc
    simp at hc
  rcases hE : (try_edge_generation g.edge).2 with _ | fs
  · rcases hT : generate_template_choreo sinpi (analyzeStage g).2.1
        (analyzeStage g).2.2.2 (analyzeStage g).2.2.1 with _ | fs
    · rw [generate_eq_ml_none_t_none sinpi g hm hw hE hT] at hc
      simp at hc
    · rw [generate_eq_ml_none_t_some sinpi g hm hw hE fs hT] at hc ⊢
      rcases saveTail_cases g (analyzeStage g).2.1 (analyzeStage g).2.2.1 fs
          (evAnalyze :: (analyzeStage g).1 ++ [evGenMoves] ++
            (try_edge_generation g.edge).1 ++ [evTemplate]) with hS | hS
      · rw [hS]
        exact getLast?_append_pair _ _ _
      · rw [hS] at hc
        simp at hc
  · rw [generate_eq_ml_some sinpi g hm hw fs hE] at hc ⊢
    rcases saveTail_cases g (analyzeStage g).2.1 (analyzeStage g).2.2.1 fs
        (evAnalyze :: (analyzeStage g).1 ++ [evGenMoves] ++
          (try_edge_generation g.edge).1) with hS | hS
    · rw [hS]
      exact getLast?_append_pair _ _ _
    · rw [hS] at hc
      simp at hc

lemma runMain_nofile (sinpi : ℚ → ℚ) (g : GenEnv)
    (hfe : g.fileExists = false) : runMain sinpi g = [evError] := by
  unfold runMain
  simp [hfe]

lemma runMain_of_some (sinpi : ℚ → ℚ) (g : GenEnv) (c : Choreography)
    (hfe : g.fileExists = true) (hc : (generate sinpi g).2 = some c) :
    runMain sinpi g = (generate sinpi g).1 := by
  unfold runMain
  simp only [hfe, Bool.not_true, Bool.false_eq_true, if_false, reduceIte]
  rcases hgen : generate sinpi g with ⟨evs, r⟩
  rw [hgen] at hc
  rcases r with _ | c2
  · simp at hc
  · rfl

lemma runMain_of_none (sinpi : ℚ → ℚ) (g : GenEnv)
    (hfe : g.fileExists = true) (hn : (generate sinpi g).2 = none) :
    runMain sinpi g = (generate sinpi g).1 ++ [evError] := by
  unfold runMain
  simp only [hfe, Bool.not_true, Bool.false_eq_true, if_false, reduceIte]
  rcases hgen : generate sinpi g with ⟨evs, r⟩
  rw [hgen] at hn
  rcases r with _ | c2
  · rfl
  · simp at hn

/-- Claim C9 counterexample: a run in which the EDGE module is importable
but inference yields an empty output emits the milestone progress values
`0.35, 0.5, 0.75`, then falls back and emits `0.4` — the trace
`[0.1, 0.3, 0.35, 0.5, 0.75, 0.4, 0.9, 1.0]` is not non-decreasing even
though the run succeeds. -/
theorem progress_monotonicity_counterexample :
    runMain (fun _ => 0) ⟨true, true, some (10, 120, [0, 1, 2]), none, true,
        ⟨true, true, true, some []⟩, true, "x"⟩ =
      [evAnalyze, evGenMoves, evLoad, evInfer, evProject, evTemplate,
        evSave, evDone] ∧
    ¬ List.Chain' (· ≤ ·) ((runMain (fun _ => 0)
        ⟨true, true, some (10, 120, [0, 1, 2]), none, true,
          ⟨true, true, true, some []⟩, true, "x"⟩).map fun ev => ev.2) := by
  have ht : runMain (fun _ => 0) ⟨true, true, some (10, 120, [0, 1, 2]),
      none, true, ⟨true, true, true, some []⟩, true, "x"⟩ =
      [evAnalyze, evGenMoves, evLoad, evInfer, evProject, evTemplate,
        evSave, evDone] := by rfl
  refine ⟨ht, ?_⟩
  rw [ht]
  simp [evAnalyze, evGenMoves, evLoad, evInfer, evProject, evTemplate,
    evSave, evDone, List.chain'_cons]
  norm_num

/-- Claim C9 amended: within one run the progress values of the
non-`Error` events are non-decreasing provided the ML tier does not fail
after emitting its inference milestones; the final event of a successful
run is `Done` at progress `1.0`, and the final event of an `Error` run is
the terminal `Error` event at progress `0.0` (which may itself be a
decrease). -/
theorem progress_monotonicity_amended (sinpi : ℚ → ℚ) (g : GenEnv)
    (hL : edgeLateFail g.edge = false) :
    List.Chain' (· ≤ ·) (okProgress (runMain sinpi g)) ∧
    (∀ c, (generate sinpi g).2 = some c → g.fileExists = true →
      (runMain sinpi g).getLast? = some evDone) ∧
    ((g.fileExists = false ∨ (generate sinpi g).2 = none) →
      (runMain sinpi g).getLast? = some evError) := by
  refine ⟨?_, ?_, ?_⟩
  · by_cases hfe : g.fileExists
    · rcases hr : (generate sinpi g).2 with _ | c
      · rw [runMain_of_none sinpi g hfe hr]
        have h := generate_trace_chain sinpi g hL
        simpa [okProgress, List.filter_append, evError] using h
      · rw [runMain_of_some sinpi g c hfe hr]
        exact generate_trace_chain sinpi g hL
    · rw [runMain_nofile sinpi g (by simpa using hfe)]
      simp [okProgress, evError]
  · intro c hc hfe
    rw [runMain_of_some sinpi g c hfe hc]
    exact generate_some_lastEvent sinpi g c hc
  · intro h
    by_cases hfe : g.fileExists
    · rcases h with hfe2 | hn
      · rw [hfe2] at hfe; simp at hfe
      · rw [runMain_of_none sinpi g hfe hn]
        exact List.getLast?_concat _
    · rw [runMain_nofile sinpi g (by simpa using hfe)]
      rfl

/-- Witness for the amended C9 on a successful template-mode run. -/
theorem progress_monotonicity_amended_witness :
    List.Chain' (· ≤ ·) (okProgress (runMain (fun _ => 0)
      ⟨true, true, some (10, 120, [0, 1, 2]), none, true,
        ⟨false, false, false, none⟩, true, "x"⟩)) ∧
    (∀ c, (generate (fun _ => (0:ℚ))
        ⟨true, true, some (10, 120, [0, 1, 2]), none, true,
          ⟨false, false, false, none⟩, true, "x"⟩).2 = some c →
      (⟨true, true, some (10, 120, [0, 1, 2]), none, true,
        ⟨false, false, false, none⟩, true, "x"⟩ : GenEnv).fileExists =
          true →
      (runMain (fun _ => 0) ⟨true, true, some (10, 120, [0, 1, 2]), none,
        true, ⟨false, false, false, none⟩, true, "x"⟩).getLast? =
          some evDone) ∧
    (((⟨true, true, some (10, 120, [0, 1, 2]), none, true,
        ⟨false, false, false, none⟩, true, "x"⟩ : GenEnv).fileExists =
          false ∨
      (generate (fun _ => (0:ℚ))
        ⟨true, true, some (10, 120, [0, 1, 2]), none, true,
          ⟨false, false, false, none⟩, true, "x"⟩).2 = none) →
      (runMain (fun _ => 0) ⟨true, true, some (10, 120, [0, 1, 2]), none,
        true, ⟨false, false, false, none⟩, true, "x"⟩).getLast? =
          some evError) :=
  progress_monotonicity_amended (fun _ => 0)
    ⟨true, true, some (10, 120, [0, 1, 2]), none, true,
      ⟨false, false, false, none⟩, true, "x"⟩ (by rfl)

end Macdance
